import Mathlib

/-!
Verification of the gyromitra animation engine (src/index.js): the spring
signal store, the breakpoint-table interpolation engine, the default scene
configuration, the post-processing pass chain, the procedural star field,
and the input-event handlers, shallowly embedded over exact rationals
(reals where the source uses trigonometry).
-/

namespace Gyromitra

/-! ## Interpolation engine -/

/-- Modelled from the spec: the interpolation engine is provided by the
react-spring dependency, not by a file under src.  Per the spec, a
breakpoint table is an ordered sequence of (domain value, output value)
pairs; querying below the first or above the last domain value clamps to
the nearest endpoint's output, querying between two entries linearly
interpolates, and a single-breakpoint table returns a constant. -/
def interpolate : List (ℚ × ℚ) → ℚ → ℚ
  | [], _ => 0
  | [(_, o)], _ => o
  | (d1, o1) :: (d2, o2) :: rest, x =>
    if x ≤ d1 then o1
    else if x ≤ d2 then o1 + (o2 - o1) * (x - d1) / (d2 - d1)
    else interpolate ((d2, o2) :: rest) x

/-- The table's domain values are strictly increasing (spec data-model
invariant for breakpoint tables). -/
def domStrictMono (t : List (ℚ × ℚ)) : Prop :=
  t.Chain' (fun p q => p.1 < q.1)

/-- The table's output values are weakly increasing. -/
def outMono (t : List (ℚ × ℚ)) : Prop :=
  t.Chain' (fun p q => p.2 ≤ q.2)

instance (t : List (ℚ × ℚ)) : Decidable (domStrictMono t) :=
  inferInstanceAs (Decidable (t.Chain' _))

instance (t : List (ℚ × ℚ)) : Decidable (outMono t) :=
  inferInstanceAs (Decidable (t.Chain' _))

/-- Output value of the last breakpoint (0 for the empty table). -/
def lastOut : List (ℚ × ℚ) → ℚ
  | [] => 0
  | [(_, o)] => o
  | _ :: p :: rest => lastOut (p :: rest)

/-! ## Default scene configuration (from src/index.js) -/

/-- Image-layer opacity table, from `top.interpolate([0, 500], [0, 1])`
in the Images component. -/
def imageOpacityTable : List (ℚ × ℚ) := [(0, 0), (500, 1)]

/-- Scroll extent, from `const scrollMax = size.height * 4.5` in Scene. -/
def scrollMax (height : ℚ) : ℚ := height * (9 / 2)

/-- Domain values of the glitch-effect intensity table passed to Effects:
`[0, scrollMax * 0.1, scrollMax * 0.34, scrollMax * 0.35, scrollMax * 0.5,
scrollMax * 0.8]`. -/
def glitchRanges (s : ℚ) : List ℚ :=
  [0, s * (1 / 10), s * (17 / 50), s * (7 / 20), s * (1 / 2), s * (4 / 5)]

/-- Output values of the glitch-effect intensity table passed to Effects:
`[5, 0, .4, 0, 0]`. -/
def glitchOutputs : List ℚ := [5, 0, 2 / 5, 0, 0]

/-- Text opacity table for the second Text element, from
`top.interpolate([0, scrollMax * 0.25, scrollMax * 0.5, scrollMax],
[0, .5, .8, 1])`. -/
def textOpacityTable (s : ℚ) : List (ℚ × ℚ) :=
  [(0, 0), (s * (1 / 4), 1 / 2), (s * (1 / 2), 4 / 5), (s, 1)]

/-! ## Spring signal store -/

/-- A signal's per-frame state: current value and velocity. -/
structure SpringState where
  value : ℚ
  velocity : ℚ
deriving DecidableEq

/-- Frame step used throughout: `dt = 1/60`. -/
def dt : ℚ := 1 / 60

/-- Spring stiffness producing exact critical damping of the discrete
integrator at `dt = 1/60` (the spec treats the exact constants as tunable
configuration). -/
def stiffness : ℚ := 400

/-- Per-tick velocity decay factor paired with `stiffness` for critical
damping: the update matrix has the single repeated eigenvalue 3/4. -/
def damping : ℚ := 9 / 16

/-- Modelled from the spec: the spring integrator lives in the react-spring
dependency, not under src.  Per §4.1,
`velocity += (target - value) * stiffness * dt; velocity *= damping;
value += velocity * dt`. -/
def springTick (target : ℚ) (s : SpringState) : SpringState :=
  let v := (s.velocity + (target - s.value) * stiffness * dt) * damping
  { value := s.value + v * dt, velocity := v }

/-! ## Post-processing pass chain (Effects component) -/

/-- The two pass kinds appearing in the default pipeline. -/
inductive PassKind where
  | renderPass
  | glitchPass
deriving DecidableEq

/-- A pass of the composer chain: its kind and whether it is flagged
renderToScreen. -/
structure ComposerPass where
  kind : PassKind
  renderToScreen : Bool
deriving DecidableEq

/-- The ordered pass chain declared inside Effects:
`<renderPass …/>` then `<a.glitchPass … renderToScreen …/>`. -/
def effectsPasses : List ComposerPass :=
  [⟨.renderPass, false⟩, ⟨.glitchPass, true⟩]

/-- A pass's intermediate render target, reporting buffer dimensions. -/
structure PassTarget where
  kind : PassKind
  width : ℕ
  height : ℕ
deriving DecidableEq

/-- An effect composer: the ordered passes with their intermediate
targets. -/
structure Composer where
  passes : List PassTarget
deriving DecidableEq

/-- Modelled from the spec: EffectComposer.setSize lives in
postprocessing/EffectComposer, which is not under src.  Per §3,
resizing the pipeline propagates the new size to every pass's
intermediate buffers. -/
def setSize (w h : ℕ) (c : Composer) : Composer :=
  ⟨c.passes.map fun p => { p with width := w, height := h }⟩

/-! ## Procedural star field (Stars component) -/

/-- Degrees to radians, from THREE.Math.degToRad. -/
noncomputable def degToRad (x : ℝ) : ℝ := x * Real.pi / 180

/-- The star field's per-frame state: the phase `theta`, the group's
rotation and scale, and the child element positions. -/
structure StarsState where
  theta : ℝ
  rotation : ℝ × ℝ × ℝ
  scale : ℝ × ℝ × ℝ
  coords : List (ℝ × ℝ × ℝ)

/-- One useRender frame of Stars: `theta += 0.01`,
`r = 5 * sin(degToRad(theta))`, `s = cos(degToRad(theta * 2))`, the group
rotation set to `(r, r, r)` and the group scale to `(s, s, s)`; the
elapsed-time argument is ignored and the coords are untouched. -/
noncomputable def starsFrame (_elapsed : ℝ) (st : StarsState) : StarsState :=
  let th := st.theta + 0.01
  let r := 5 * Real.sin (degToRad th)
  let c := Real.cos (degToRad (th * 2))
  { theta := th, rotation := (r, r, r), scale := (c, c, c), coords := st.coords }

/-- The star coordinates generated once at initialization:
2500 elements, each coordinate drawn as `random() * 800 - 400` from the
supplied random stream. -/
noncomputable def starsCoords (rand : ℕ → ℝ) : List (ℝ × ℝ × ℝ) :=
  (List.range 2500).map fun i =>
    (rand (3 * i) * 800 - 400, rand (3 * i + 1) * 800 - 400,
     rand (3 * i + 2) * 800 - 400)

/-! ## Image hover (Image component) -/

/-- Hover spring target from the Image component:
`useSpring(\x7b factor: hovered ? 1.1 : 1 \x7d)`. -/
def hoverTarget (hovered : Bool) : ℚ := if hovered then 11 / 10 else 1

/-- Rendered mesh scale from the Image component:
`factor.interpolate(f => [scale * f, scale * f, 1])`. -/
def imageScale (scale f : ℚ) : ℚ × ℚ × ℚ := (scale * f, scale * f, 1)

/-! ## Input events (Main component) -/

/-- Raw input events reaching the two handlers of Main. -/
inductive InputEvent where
  | mouseMove (x y : ℚ)
  | scroll (scrollTop : ℚ)
deriving DecidableEq

/-- The pending targets of the two signals driven by Main. -/
structure Targets where
  mouse : ℚ × ℚ
  top : ℚ
deriving DecidableEq

/-- The mouse target set by onMouseMove:
`[x - window.innerWidth / 2, y - window.innerHeight / 2]` for window size
(w, h). -/
def mouseTargetOf (w h x y : ℚ) : ℚ × ℚ := (x - w / 2, y - h / 2)

/-- Applying one event: onMouseMove stores the window-centered pair,
onScroll stores the raw scrollTop; each overwrites the previous target. -/
def applyEvent (w h : ℚ) (t : Targets) : InputEvent → Targets
  | .mouseMove x y => { t with mouse := mouseTargetOf w h x y }
  | .scroll st => { t with top := st }

/-- Applying a burst of events arrived before the next frame, in order. -/
def applyEvents (w h : ℚ) (t : Targets) (es : List InputEvent) : Targets :=
  es.foldl (applyEvent w h) t

/-! ## Interpolation lemmas -/

theorem head_out_le_interpolate (d o : ℚ) (rest : List (ℚ × ℚ)) (x : ℚ)
    (hd : ((d, o) :: rest).Chain' (fun p q => p.1 < q.1))
    (ho : ((d, o) :: rest).Chain' (fun p q => p.2 ≤ q.2)) :
    o ≤ interpolate ((d, o) :: rest) x := by
  induction rest generalizing d o with
  | nil => simp [interpolate]
  | cons q rest ih =>
    obtain ⟨d2, o2⟩ := q
    rw [List.chain'_cons] at hd ho
    simp only [interpolate]
    split
    · exact le_refl o
    next hx1 =>
      split
      next hx2 =>
        have h1 : 0 ≤ o2 - o := by linarith [ho.1]
        have h2 : 0 ≤ x - d := by push_neg at hx1; linarith
        have h3 : 0 < d2 - d := by linarith [hd.1]
        have h4 : 0 ≤ (o2 - o) * (x - d) / (d2 - d) :=
          div_nonneg (mul_nonneg h1 h2) h3.le
        linarith
      next hx2 =>
        exact le_trans ho.1 (ih d2 o2 hd.2 ho.2)

theorem head_out_le_lastOut (d o : ℚ) (rest : List (ℚ × ℚ))
    (ho : ((d, o) :: rest).Chain' (fun p q => p.2 ≤ q.2)) :
    o ≤ lastOut ((d, o) :: rest) := by
  induction rest generalizing d o with
  | nil => simp [lastOut]
  | cons q rest ih =>
    obtain ⟨d2, o2⟩ := q
    rw [List.chain'_cons] at ho
    simp only [lastOut]
    exact le_trans ho.1 (ih d2 o2 ho.2)

theorem interpolate_le_lastOut (t : List (ℚ × ℚ)) (x : ℚ)
    (hd : t.Chain' (fun p q => p.1 < q.1))
    (ho : t.Chain' (fun p q => p.2 ≤ q.2)) :
    interpolate t x ≤ lastOut t := by
  induction t with
  | nil => simp [interpolate, lastOut]
  | cons p t ih =>
    cases t with
    | nil =>
      obtain ⟨d, o⟩ := p
      simp [interpolate, lastOut]
    | cons q rest =>
      obtain ⟨d1, o1⟩ := p
      obtain ⟨d2, o2⟩ := q
      rw [List.chain'_cons] at hd ho
      simp only [interpolate, lastOut]
      split
      next hx1 =>
        exact le_trans ho.1 (head_out_le_lastOut d2 o2 rest ho.2)
      next hx1 =>
        split
        next hx2 =>
          have h1 : 0 ≤ o2 - o1 := by linarith [ho.1]
          have h3 : 0 < d2 - d1 := by linarith [hd.1]
          have key : (o2 - o1) * (x - d1) / (d2 - d1) ≤ o2 - o1 := by
            rw [div_le_iff₀ h3]
            have hx : x - d1 ≤ d2 - d1 := by linarith
            calc (o2 - o1) * (x - d1) ≤ (o2 - o1) * (d2 - d1) :=
                  mul_le_mul_of_nonneg_left hx h1
              _ = (o2 - o1) * (d2 - d1) := rfl
          have h5 : o2 ≤ lastOut ((d2, o2) :: rest) :=
            head_out_le_lastOut d2 o2 rest ho.2
          linarith
        next hx2 =>
          exact ih hd.2 ho.2

theorem interpolate_mono_aux (t : List (ℚ × ℚ)) (x1 x2 : ℚ) (h : x1 ≤ x2)
    (hd : t.Chain' (fun p q => p.1 < q.1))
    (ho : t.Chain' (fun p q => p.2 ≤ q.2)) :
    interpolate t x1 ≤ interpolate t x2 := by
  induction t with
  | nil => simp [interpolate]
  | cons p t ih =>
    cases t with
    | nil =>
      obtain ⟨d, o⟩ := p
      simp [interpolate]
    | cons q rest =>
      obtain ⟨d1, o1⟩ := p
      obtain ⟨d2, o2⟩ := q
      have hd' := hd
      have ho' := ho
      rw [List.chain'_cons] at hd ho
      have hd12 : d1 < d2 := hd.1
      have ho12 : o1 ≤ o2 := ho.1
      by_cases h1 : x1 ≤ d1
      · have e1 : interpolate ((d1, o1) :: (d2, o2) :: rest) x1 = o1 := by
          simp [interpolate, h1]
        rw [e1]
        exact head_out_le_interpolate d1 o1 ((d2, o2) :: rest) x2 hd' ho'
      · push_neg at h1
        by_cases h2 : x1 ≤ d2
        · by_cases h3 : x2 ≤ d2
          · have e1 : interpolate ((d1, o1) :: (d2, o2) :: rest) x1
                = o1 + (o2 - o1) * (x1 - d1) / (d2 - d1) := by
              simp [interpolate, not_le.mpr h1, h2]
            have e2 : interpolate ((d1, o1) :: (d2, o2) :: rest) x2
                = o1 + (o2 - o1) * (x2 - d1) / (d2 - d1) := by
              have hx2d : ¬ x2 ≤ d1 := by linarith
              simp [interpolate, hx2d, h3]
            rw [e1, e2]
            have hden : 0 < d2 - d1 := by linarith
            have hnum : (o2 - o1) * (x1 - d1) ≤ (o2 - o1) * (x2 - d1) :=
              mul_le_mul_of_nonneg_left (by linarith) (by linarith)
            have hdiv := (div_le_div_iff_of_pos_right hden).mpr hnum
            linarith
          · have e1 : interpolate ((d1, o1) :: (d2, o2) :: rest) x1
                = o1 + (o2 - o1) * (x1 - d1) / (d2 - d1) := by
              simp [interpolate, not_le.mpr h1, h2]
            have e2 : interpolate ((d1, o1) :: (d2, o2) :: rest) x2
                = interpolate ((d2, o2) :: rest) x2 := by
              have hx2a : ¬ x2 ≤ d1 := by linarith
              simp [interpolate, hx2a, h3]
            rw [e1, e2]
            have hden : 0 < d2 - d1 := by linarith
            have key : (o2 - o1) * (x1 - d1) / (d2 - d1) ≤ o2 - o1 := by
              rw [div_le_iff₀ hden]
              exact mul_le_mul_of_nonneg_left (by linarith) (by linarith)
            have h5 : o2 ≤ interpolate ((d2, o2) :: rest) x2 :=
              head_out_le_interpolate d2 o2 rest x2 hd.2 ho.2
            linarith
        · push_neg at h2
          have e1 : interpolate ((d1, o1) :: (d2, o2) :: rest) x1
              = interpolate ((d2, o2) :: rest) x1 := by
            simp [interpolate, not_le.mpr h1, not_le.mpr h2]
          have e2 : interpolate ((d1, o1) :: (d2, o2) :: rest) x2
              = interpolate ((d2, o2) :: rest) x2 := by
            have hx2a : ¬ x2 ≤ d1 := by linarith
            have hx2b : ¬ x2 ≤ d2 := by linarith
            simp [interpolate, hx2a, hx2b]
          rw [e1, e2]
          exact ih hd.2 ho.2

/-! ## Spring integrator lemmas

With `stiffness = 400`, `damping = 9/16`, `dt = 1/60` the one-tick update
of the pair (value - target, velocity) is linear with matrix
`[[15/16, 3/320], [-15/4, 9/16]]`, which has the single repeated
eigenvalue 3/4 (critical damping), so iterates admit the closed form
proved below. -/

theorem spring_pow_step (n : ℕ) :
    ((n : ℚ) + 1) * (3 / 4) ^ n
      = 3 / 4 * ((n : ℚ) * (3 / 4) ^ (n - 1)) + (3 / 4) ^ n := by
  cases n with
  | zero => norm_num
  | succ m =>
    have hm : m + 1 - 1 = m := rfl
    rw [hm, pow_succ]
    push_cast
    ring

theorem springTick_iterate_closed (t : ℚ) (s : SpringState) (n : ℕ) :
    ((springTick t)^[n] s).value - t
      = (3 / 4) ^ n * (s.value - t)
        + (n : ℚ) * (3 / 4) ^ (n - 1)
          * (3 / 16 * (s.value - t) + 3 / 320 * s.velocity)
    ∧ ((springTick t)^[n] s).velocity
      = (3 / 4) ^ n * s.velocity
        + (n : ℚ) * (3 / 4) ^ (n - 1)
          * (-(15 / 4) * (s.value - t) - 3 / 16 * s.velocity) := by
  induction n with
  | zero => simp
  | succ n ih =>
    obtain ⟨ihu, ihv⟩ := ih
    have hstep_u : ((springTick t)^[n + 1] s).value - t
        = 15 / 16 * (((springTick t)^[n] s).value - t)
          + 3 / 320 * ((springTick t)^[n] s).velocity := by
      rw [Function.iterate_succ_apply']
      simp only [springTick, stiffness, damping, dt]
      ring
    have hstep_v : ((springTick t)^[n + 1] s).velocity
        = -(15 / 4) * (((springTick t)^[n] s).value - t)
          + 9 / 16 * ((springTick t)^[n] s).velocity := by
      rw [Function.iterate_succ_apply']
      simp only [springTick, stiffness, damping, dt]
      ring
    have key := spring_pow_step n
    have hpow : (3 / 4 : ℚ) ^ (n + 1) = 3 / 4 * (3 / 4) ^ n := by
      rw [pow_succ]; ring
    have hsub : n + 1 - 1 = n := rfl
    have hmix : (n : ℚ) * (3 / 4) ^ (n - 1) * (3 / 4) = (n : ℚ) * (3 / 4) ^ n := by
      cases n with
      | zero => norm_num
      | succ m =>
        have hm : m + 1 - 1 = m := rfl
        rw [hm, pow_succ]
        ring
    constructor
    · rw [hstep_u, ihu, ihv, hsub, hpow]
      push_cast
      linear_combination (3 / 16 * (s.value - t) + 3 / 320 * s.velocity) * key
        + (3 / 8 * (s.value - t) + 3 / 160 * s.velocity) * hmix
    · rw [hstep_v, ihu, ihv, hsub, hpow]
      push_cast
      linear_combination
        (-(15 / 4) * (s.value - t) - 3 / 16 * s.velocity) * key
        + (-(15 / 2) * (s.value - t) - 3 / 8 * s.velocity) * hmix

theorem nat_le_six_mul_geom (n : ℕ) : (n : ℚ) ≤ 6 * (7 / 6) ^ n := by
  have h := one_add_mul_le_pow (a := (1 / 6 : ℚ)) (by norm_num) n
  have h2 : ((7 : ℚ) / 6) ^ n = (1 + 1 / 6) ^ n := by norm_num
  rw [h2]
  linarith

theorem spring_coeff_bound (n : ℕ) :
    (n : ℚ) * (3 / 4) ^ (n - 1) ≤ 8 * (7 / 8) ^ n := by
  cases n with
  | zero => norm_num
  | succ m =>
    have hm : m + 1 - 1 = m := rfl
    rw [hm]
    have h1 : ((m : ℚ) + 1) ≤ 6 * (7 / 6) ^ (m + 1) := by
      have := nat_le_six_mul_geom (m + 1)
      push_cast at this
      linarith
    have h3 : (0 : ℚ) ≤ (3 / 4) ^ (m + 1) := by positivity
    have h4 : ((m : ℚ) + 1) * (3 / 4) ^ (m + 1)
        ≤ 6 * (7 / 6) ^ (m + 1) * (3 / 4) ^ (m + 1) :=
      mul_le_mul_of_nonneg_right h1 h3
    have h5 : ((7 : ℚ) / 6) ^ (m + 1) * (3 / 4) ^ (m + 1) = (7 / 8) ^ (m + 1) := by
      rw [← mul_pow]; norm_num
    have h6 : (3 / 4 : ℚ) ^ (m + 1) = 3 / 4 * (3 / 4) ^ m := by
      rw [pow_succ]; ring
    push_cast
    nlinarith [h4, h5, h6]

theorem spring_dev_bound (t : ℚ) (s : SpringState) (n : ℕ) :
    |((springTick t)^[n] s).value - t|
        ≤ (7 / 8) ^ n
          * (|s.value - t| + |s.velocity|
             + 8 * |3 / 16 * (s.value - t) + 3 / 320 * s.velocity|
             + 8 * |(-(15 / 4)) * (s.value - t) - 3 / 16 * s.velocity|)
    ∧ |((springTick t)^[n] s).velocity|
        ≤ (7 / 8) ^ n
          * (|s.value - t| + |s.velocity|
             + 8 * |3 / 16 * (s.value - t) + 3 / 320 * s.velocity|
             + 8 * |(-(15 / 4)) * (s.value - t) - 3 / 16 * s.velocity|) := by
  obtain ⟨hu, hv⟩ := springTick_iterate_closed t s n
  have ha : (0 : ℚ) ≤ (3 / 4) ^ n := by positivity
  have hb : (0 : ℚ) ≤ (n : ℚ) * (3 / 4) ^ (n - 1) := by positivity
  have hgeom : (3 / 4 : ℚ) ^ n ≤ (7 / 8) ^ n :=
    pow_le_pow_left₀ (by norm_num) (by norm_num) n
  have hcoeff := spring_coeff_bound n
  have hpow78 : (0 : ℚ) ≤ (7 / 8) ^ n := by positivity
  constructor
  · rw [hu]
    calc |(3 / 4) ^ n * (s.value - t)
            + (n : ℚ) * (3 / 4) ^ (n - 1)
              * (3 / 16 * (s.value - t) + 3 / 320 * s.velocity)|
        ≤ (3 / 4) ^ n * |s.value - t|
            + (n : ℚ) * (3 / 4) ^ (n - 1)
              * |3 / 16 * (s.value - t) + 3 / 320 * s.velocity| := by
          refine le_trans (abs_add _ _) ?_
          rw [abs_mul, abs_mul, abs_of_nonneg ha, abs_of_nonneg hb]
      _ ≤ (7 / 8) ^ n * |s.value - t|
            + 8 * (7 / 8) ^ n
              * |3 / 16 * (s.value - t) + 3 / 320 * s.velocity| := by
          have g1 := mul_le_mul_of_nonneg_right hgeom (abs_nonneg (s.value - t))
          have g2 := mul_le_mul_of_nonneg_right hcoeff
            (abs_nonneg (3 / 16 * (s.value - t) + 3 / 320 * s.velocity))
          linarith
      _ ≤ _ := by
          have n1 := abs_nonneg (s.velocity)
          have n2 := abs_nonneg ((-(15 / 4)) * (s.value - t) - 3 / 16 * s.velocity)
          nlinarith [hpow78]
  · rw [hv]
    calc |(3 / 4) ^ n * s.velocity
            + (n : ℚ) * (3 / 4) ^ (n - 1)
              * (-(15 / 4) * (s.value - t) - 3 / 16 * s.velocity)|
        ≤ (3 / 4) ^ n * |s.velocity|
            + (n : ℚ) * (3 / 4) ^ (n - 1)
              * |(-(15 / 4)) * (s.value - t) - 3 / 16 * s.velocity| := by
          refine le_trans (abs_add _ _) ?_
          rw [abs_mul, abs_mul, abs_of_nonneg ha, abs_of_nonneg hb]
      _ ≤ (7 / 8) ^ n * |s.velocity|
            + 8 * (7 / 8) ^ n
              * |(-(15 / 4)) * (s.value - t) - 3 / 16 * s.velocity| := by
          have g1 := mul_le_mul_of_nonneg_right hgeom (abs_nonneg s.velocity)
          have g2 := mul_le_mul_of_nonneg_right hcoeff
            (abs_nonneg ((-(15 / 4)) * (s.value - t) - 3 / 16 * s.velocity))
          linarith
      _ ≤ _ := by
          have n1 := abs_nonneg (s.value - t)
          have n2 := abs_nonneg (3 / 16 * (s.value - t) + 3 / 320 * s.velocity)
          nlinarith [hpow78]

theorem spring_tendsto (t : ℚ) (s : SpringState) (ε : ℚ) (hε : 0 < ε) :
    ∃ N, ∀ n, N ≤ n →
      |((springTick t)^[n] s).value - t| < ε
      ∧ |((springTick t)^[n] s).velocity| < ε := by
  set M : ℚ := |s.value - t| + |s.velocity|
      + 8 * |3 / 16 * (s.value - t) + 3 / 320 * s.velocity|
      + 8 * |(-(15 / 4)) * (s.value - t) - 3 / 16 * s.velocity| with hMdef
  have hM0 : 0 ≤ M := by positivity
  have hratio : (0 : ℚ) < ε / (M + 1) := by positivity
  obtain ⟨N, hN⟩ := exists_pow_lt_of_lt_one hratio (show (7 / 8 : ℚ) < 1 by norm_num)
  refine ⟨N, fun n hn => ?_⟩
  have hpowle : ((7 : ℚ) / 8) ^ n ≤ (7 / 8) ^ N :=
    pow_le_pow_of_le_one (by norm_num) (by norm_num) hn
  have hlt : (7 / 8 : ℚ) ^ n * M < ε := by
    have h1 : (7 / 8 : ℚ) ^ n * M ≤ (7 / 8) ^ N * M :=
      mul_le_mul_of_nonneg_right hpowle hM0
    have h2 : (7 / 8 : ℚ) ^ N * M ≤ (7 / 8) ^ N * (M + 1) := by
      have : (0 : ℚ) ≤ (7 / 8) ^ N := by positivity
      nlinarith
    have h3 : (7 / 8 : ℚ) ^ N * (M + 1) < (ε / (M + 1)) * (M + 1) := by
      have : (0 : ℚ) < M + 1 := by linarith
      exact mul_lt_mul_of_pos_right hN this
    have h4 : (ε / (M + 1)) * (M + 1) = ε := by
      field_simp
    linarith
  obtain ⟨bu, bv⟩ := spring_dev_bound t s n
  exact ⟨lt_of_le_of_lt bu hlt, lt_of_le_of_lt bv hlt⟩

theorem spring_scenario_value :
    95 ≤ ((springTick 100)^[60] ⟨0, 0⟩).value := by
  have h := (springTick_iterate_closed 100 ⟨0, 0⟩ 60).1
  have e1 : (⟨0, 0⟩ : SpringState).value = 0 := rfl
  have e2 : (⟨0, 0⟩ : SpringState).velocity = 0 := rfl
  rw [e1, e2] at h
  have hkey : ((3 : ℚ) / 4) ^ (60 : ℕ) * ((0 : ℚ) - 100)
      + ((60 : ℕ) : ℚ) * (3 / 4) ^ (60 - 1)
        * (3 / 16 * ((0 : ℚ) - 100) + 3 / 320 * (0 : ℚ)) ≥ -5 := by
    norm_num
  linarith

/-- C1: for the image-opacity breakpoint table [(0,0),(500,1)], interpolate
returns 1/2 at input 250, the first output 0 for every input below 0, and
the last output 1 for every input above 500. -/
theorem c1_image_opacity_scenario :
    interpolate imageOpacityTable 250 = 1 / 2
    ∧ (∀ x : ℚ, x < 0 → interpolate imageOpacityTable x = 0)
    ∧ (∀ x : ℚ, 500 < x → interpolate imageOpacityTable x = 1) := by
  refine ⟨?_, ?_, ?_⟩
  · norm_num [interpolate, imageOpacityTable]
  · intro x hx
    have h0 : x ≤ 0 := hx.le
    simp [interpolate, imageOpacityTable, h0]
  · intro x hx
    have h0 : ¬ x ≤ (0 : ℚ) := by linarith
    have h5 : ¬ x ≤ (500 : ℚ) := by linarith
    simp [interpolate, imageOpacityTable, h0, h5]

/-- Witness for C1 at the spec's concrete inputs -100 and 9999. -/
theorem c1_image_opacity_scenario_spot :
    interpolate imageOpacityTable 250 = 1 / 2
    ∧ interpolate imageOpacityTable (-100) = 0
    ∧ interpolate imageOpacityTable 9999 = 1 :=
  ⟨c1_image_opacity_scenario.1,
   c1_image_opacity_scenario.2.1 (-100) (by norm_num),
   c1_image_opacity_scenario.2.2 9999 (by norm_num)⟩

/-- C3 (refuting theorem): the glitch-effect intensity table passed to
Effects has six domain values but only five output values, so its last
domain value is paired with no output — the code violates the breakpoint
table data model for every scrollMax. -/
theorem c3_glitch_table_length_mismatch :
    ∀ s : ℚ, (glitchRanges s).length = 6 ∧ glitchOutputs.length = 5 := by
  intro s
  constructor
  · simp [glitchRanges]
  · simp [glitchOutputs]

/-- C5: for every scroll offset, the image-opacity table and (for any
positive scrollMax) the text-opacity table yield outputs inside [0, 1]. -/
theorem c5_opacity_tables_within_unit (s x : ℚ) (hs : 0 < s) :
    (0 ≤ interpolate imageOpacityTable x ∧ interpolate imageOpacityTable x ≤ 1)
    ∧ (0 ≤ interpolate (textOpacityTable s) x
        ∧ interpolate (textOpacityTable s) x ≤ 1) := by
  have hdI : imageOpacityTable.Chain' (fun p q => p.1 < q.1) := by
    norm_num [imageOpacityTable]
  have hoI : imageOpacityTable.Chain' (fun p q => p.2 ≤ q.2) := by
    norm_num [imageOpacityTable]
  have hdT : (textOpacityTable s).Chain' (fun p q => p.1 < q.1) := by
    simp only [textOpacityTable, List.chain'_cons, List.chain'_singleton]
    refine ⟨?_, ?_, ?_, trivial⟩ <;> linarith
  have hoT : (textOpacityTable s).Chain' (fun p q => p.2 ≤ q.2) := by
    simp only [textOpacityTable, List.chain'_cons, List.chain'_singleton]
    norm_num
  refine ⟨⟨?_, ?_⟩, ?_, ?_⟩
  · exact head_out_le_interpolate 0 0 [(500, 1)] x hdI hoI
  · have := interpolate_le_lastOut imageOpacityTable x hdI hoI
    simpa [imageOpacityTable, lastOut] using this
  · exact head_out_le_interpolate 0 0 _ x hdT hoT
  · have := interpolate_le_lastOut (textOpacityTable s) x hdT hoT
    simpa [textOpacityTable, lastOut] using this

/-- Witness for C5 at scrollMax 2700 (viewport height 600) and offset 1000. -/
theorem c5_opacity_tables_within_unit_spot :
    (0 ≤ interpolate imageOpacityTable 1000
      ∧ interpolate imageOpacityTable 1000 ≤ 1)
    ∧ (0 ≤ interpolate (textOpacityTable 2700) 1000
        ∧ interpolate (textOpacityTable 2700) 1000 ≤ 1) :=
  c5_opacity_tables_within_unit 2700 1000 (by norm_num)

/-- C6: interpolation is monotone on every breakpoint table with strictly
increasing domain values and weakly increasing outputs. -/
theorem c6_interpolate_monotone (t : List (ℚ × ℚ)) (x1 x2 : ℚ)
    (hd : domStrictMono t) (ho : outMono t) (h : x1 < x2) :
    interpolate t x1 ≤ interpolate t x2 :=
  interpolate_mono_aux t x1 x2 h.le hd ho

/-- Witness for C6 on the image-opacity table at inputs 100 < 300. -/
theorem c6_interpolate_monotone_spot :
    domStrictMono imageOpacityTable ∧ outMono imageOpacityTable
    ∧ ((100 : ℚ) < 300)
    ∧ interpolate imageOpacityTable 100 ≤ interpolate imageOpacityTable 300 :=
  ⟨by norm_num [domStrictMono, imageOpacityTable],
   by norm_num [outMono, imageOpacityTable],
   by norm_num,
   c6_interpolate_monotone imageOpacityTable 100 300
     (by norm_num [domStrictMono, imageOpacityTable])
     (by norm_num [outMono, imageOpacityTable]) (by norm_num)⟩

/-- C2: for every signal state and fixed target, repeated ticks drive the
value to within any positive epsilon of the target and the velocity to
within epsilon of zero; and the critically damped signal starting at value
0 with target 100 reaches a value of at least 95 within 60 ticks of
dt = 1/60. -/
theorem c2_spring_convergence :
    (∀ (s : SpringState) (t ε : ℚ), 0 < ε → ∃ N, ∀ n, N ≤ n →
        |((springTick t)^[n] s).value - t| < ε
        ∧ |((springTick t)^[n] s).velocity| < ε)
    ∧ 95 ≤ ((springTick 100)^[60] ⟨0, 0⟩).value :=
  ⟨fun s t ε hε => spring_tendsto t s ε hε, spring_scenario_value⟩

/-- Witness for C2 with epsilon 1 on the scenario signal. -/
theorem c2_spring_convergence_spot :
    (0 : ℚ) < 1 ∧ ∃ N, ∀ n, N ≤ n →
      |((springTick 100)^[n] ⟨0, 0⟩).value - 100| < 1
      ∧ |((springTick 100)^[n] ⟨0, 0⟩).velocity| < 1 :=
  ⟨one_pos, c2_spring_convergence.1 ⟨0, 0⟩ 100 1 one_pos⟩

/-- C4: in the Effects pipeline the chain is [renderPass, glitchPass],
exactly one pass is flagged renderToScreen, and that pass is the last of
the chain. -/
theorem c4_render_to_screen_last :
    effectsPasses.map ComposerPass.kind = [.renderPass, .glitchPass]
    ∧ effectsPasses.filter (fun p => p.renderToScreen) = [⟨.glitchPass, true⟩]
    ∧ effectsPasses.getLast? = some ⟨.glitchPass, true⟩ :=
  ⟨rfl, rfl, rfl⟩

/-- C7: resizing twice with the same size equals resizing once, and the
800x600 → 400x300 resize of the two-pass pipeline leaves both passes'
intermediate buffers reporting 400x300. -/
theorem c7_resize_idempotent :
    (∀ (w h : ℕ) (c : Composer), setSize w h (setSize w h c) = setSize w h c)
    ∧ (setSize 400 300
          ⟨[⟨.renderPass, 800, 600⟩, ⟨.glitchPass, 800, 600⟩]⟩).passes
        = [⟨.renderPass, 400, 300⟩, ⟨.glitchPass, 400, 300⟩] := by
  constructor
  · intro w h c
    simp only [setSize, List.map_map]
    rfl
  · rfl

/-- C8: the star field advances its phase by the fixed increment 0.01 per
frame independently of elapsed time, sets the group rotation to the triple
(r, r, r) with r = 5·sin(degToRad(phase)) and the group scale uniformly to
cos(degToRad(phase·2)), and its 2500 element positions are generated once
from the random stream and never change on later frames. -/
theorem c8_stars_field :
    (∀ rand : ℕ → ℝ, (starsCoords rand).length = 2500)
    ∧ (∀ (e1 e2 : ℝ) (st : StarsState), starsFrame e1 st = starsFrame e2 st)
    ∧ (∀ (e : ℝ) (st : StarsState),
        (starsFrame e st).theta = st.theta + 0.01
        ∧ (starsFrame e st).rotation
            = (5 * Real.sin (degToRad (st.theta + 0.01)),
               5 * Real.sin (degToRad (st.theta + 0.01)),
               5 * Real.sin (degToRad (st.theta + 0.01)))
        ∧ (starsFrame e st).scale
            = (Real.cos (degToRad ((st.theta + 0.01) * 2)),
               Real.cos (degToRad ((st.theta + 0.01) * 2)),
               Real.cos (degToRad ((st.theta + 0.01) * 2)))
        ∧ (starsFrame e st).coords = st.coords)
    ∧ (∀ (e : ℝ) (n : ℕ) (st : StarsState),
        ((starsFrame e)^[n] st).coords = st.coords) := by
  refine ⟨fun rand => by simp [starsCoords],
    fun e1 e2 st => rfl,
    fun e st => ⟨rfl, rfl, rfl, rfl⟩,
    ?_⟩
  intro e n st
  induction n with
  | zero => rfl
  | succ n ih =>
    rw [Function.iterate_succ_apply']
    exact ih

/-- C9: on pointer-enter the hover signal targets the enlarged factor 1.1
and on pointer-exit 1.0, the factor is smoothed by the spring integrator
(iterating the tick drives it to the target), and the rendered mesh scale
is (scale·f, scale·f, 1) for the current factor f. -/
theorem c9_hover_scale :
    hoverTarget true = 11 / 10
    ∧ hoverTarget false = 1
    ∧ (∀ s f : ℚ, imageScale s f = (s * f, s * f, 1))
    ∧ (∀ (hovered : Bool) (st : SpringState) (ε : ℚ), 0 < ε →
        ∃ N, ∀ n, N ≤ n →
          |((springTick (hoverTarget hovered))^[n] st).value
              - hoverTarget hovered| < ε) := by
  refine ⟨rfl, rfl, fun s f => rfl, fun hovered st ε hε => ?_⟩
  obtain ⟨N, hN⟩ := spring_tendsto (hoverTarget hovered) st ε hε
  exact ⟨N, fun n hn => (hN n hn).1⟩

/-- Witness for C9: hovering with epsilon 1 from factor 1 at rest. -/
theorem c9_hover_scale_spot :
    (0 : ℚ) < 1 ∧ ∃ N, ∀ n, N ≤ n →
      |((springTick (hoverTarget true))^[n] ⟨1, 0⟩).value
          - hoverTarget true| < 1 :=
  ⟨one_pos, c9_hover_scale.2.2.2 true ⟨1, 0⟩ 1 one_pos⟩

/-- C10: onMouseMove targets the window-centered pair
(x - innerWidth/2, y - innerHeight/2), onScroll targets the raw scrollTop,
and when several events arrive before the next frame only the latest
target of each signal is retained. -/
theorem c10_input_targets :
    (∀ (w h x y : ℚ) (t : Targets),
        applyEvent w h t (.mouseMove x y)
          = { t with mouse := (x - w / 2, y - h / 2) })
    ∧ (∀ (w h st : ℚ) (t : Targets),
        applyEvent w h t (.scroll st) = { t with top := st })
    ∧ (∀ (w h x y : ℚ) (t : Targets) (es : List InputEvent),
        (applyEvents w h t (es ++ [.mouseMove x y])).mouse
          = (x - w / 2, y - h / 2))
    ∧ (∀ (w h st : ℚ) (t : Targets) (es : List InputEvent),
        (applyEvents w h t (es ++ [.scroll st])).top = st) := by
  refine ⟨fun w h x y t => rfl, fun w h st t => rfl, ?_, ?_⟩
  · intro w h x y t es
    simp [applyEvents, List.foldl_append, applyEvent, mouseTargetOf]
  · intro w h st t es
    simp [applyEvents, List.foldl_append, applyEvent]

end Gyromitra
